import Mathlib

/-!
Verification of the nonchalant live-media server core against its
natural-language specification.  The Go sources are shallowly embedded:
byte slices become `List Nat` (each element < 256 where the source writes
bytes), `uint32`/`uint64` arithmetic is `Nat` arithmetic with explicit
`% 2^32` / `% 2^64` where Go overflow semantics matter, and fallible code
returns `Except`/`Option`.
-/

namespace Nonchalant

/-- Modulus of Go's `uint32` arithmetic. -/
def U32 : Nat := 4294967296

/-- Modulus of Go's `uint64` arithmetic. -/
def U64 : Nat := 18446744073709551616

/-- Go unsigned 32-bit subtraction `a - b` (wraps modulo `2^32`);
both operands are expected to be `< 2^32`. -/
def u32sub (a b : Nat) : Nat := (U32 + a - b) % U32

/-- Big-endian byte encoding: `beBytes n x` is the `n`-byte big-endian
encoding of `x` (the low `8*n` bits of `x`), mirroring Go's
`binary.BigEndian.PutUintN` and sequences of `byte(x >> k)` writes. -/
def beBytes : Nat → Nat → List Nat
  | 0, _ => []
  | n + 1, x => (x >>> (8 * n)) % 256 :: beBytes n x

/-- Big-endian byte decoding, used only in theorem statements to express
that a byte run holds a given value. -/
def readBE (l : List Nat) : Nat := l.foldl (fun acc b => acc * 256 + b) 0

namespace amf0

/-! AMF0 codec, embedded from `internal/core/protocol/amf0`
(`types.go` and the encoder half of `decode.go`).  A Go `float64` is
represented by its IEEE-754 bit pattern (a `Nat < 2^64`), since the
encoder only ever writes the 8 big-endian bytes of that pattern.
Strings and object keys are byte lists.  A Go `Object` is a map with
unspecified iteration order; it is embedded as an association list, so
the encoder emits fields in list order (one of the orders Go may use —
none of the verified claims depends on field order). -/

/-- AMF0 type markers, from `types.go`. -/
def TypeNumber : Nat := 0
def TypeBoolean : Nat := 1
def TypeString : Nat := 2
def TypeObject : Nat := 3
def TypeNull : Nat := 5
def TypeUndefined : Nat := 6
def TypeECMAArray : Nat := 8
def TypeObjectEnd : Nat := 9
def TypeStrictArray : Nat := 10
def TypeLongString : Nat := 12

/-- AMF0 value, covering exactly the cases Go's `Encode` dispatches on:
`float64`, `bool`, `string`, `nil`, `Object`, `Array`. -/
inductive Value where
  | num (bits : Nat)
  | boolean (b : Bool)
  | str (s : List Nat)
  | null
  | object (fields : List (List Nat × Value))
  | array (items : List Value)

mutual

/-- Embeds `Encode` together with the `encodeNumber`, `encodeBoolean`,
`encodeString`, `encodeNull`, `encodeObject` and `encodeArray` helpers
of the encoder in `decode.go`: marker byte, then the value's payload. -/
def encodeValue : Value → List Nat
  | .num bits => TypeNumber :: beBytes 8 bits
  | .boolean b => [TypeBoolean, if b then 1 else 0]
  | .str s => TypeString :: (beBytes 2 s.length ++ s)
  | .null => [TypeNull]
  | .object fs => TypeObject :: (encodeFields fs ++ [0, 0, TypeObjectEnd])
  | .array vs => TypeStrictArray :: (beBytes 4 vs.length ++ encodeItems vs)

/-- Field loop of `encodeObject`: `u16` key length, key bytes, value. -/
def encodeFields : List (List Nat × Value) → List Nat
  | [] => []
  | (k, v) :: rest => beBytes 2 k.length ++ k ++ encodeValue v ++ encodeFields rest

/-- Item loop of `encodeArray`. -/
def encodeItems : List Value → List Nat
  | [] => []
  | v :: rest => encodeValue v ++ encodeItems rest

end

/-- Embeds `EncodeCommand` from `decode.go`: it encodes the command
array via `encodeArray`, i.e. with the StrictArray marker and `u32`
count up front.  (The Go version returns `([]byte, error)` but writing
to a `bytes.Buffer` cannot fail, so the embedding is total.) -/
def EncodeCommand (arr : List Value) : List Nat :=
  encodeValue (.array arr)

end amf0

namespace bus

/-! The stream bus, embedded from `internal/core/bus`.  The repository
snapshot carries two revisions of the ring buffer; the embedding follows
the current one (free-running `uint32` positions, masked only when
indexing), which is the revision the unit tests
(`TestRingBufferWrapAround`, `TestRingBufferInterleavedWrapAround`)
exercise and the spec describes. -/

/-- Media message kind, from `message.go` (`MessageTypeAudio = 0`,
`MessageTypeVideo = 1`, `MessageTypeMetadata = 2`). -/
inductive MessageType where
  | audio
  | video
  | metadata
  deriving DecidableEq, Repr

/-- Modelled from the spec: the current `message.go` is absent from the
snapshot (only the older revision without the `is_init` flag survives,
while `stream.go`, the RTMP publisher and the FLV subscribers all read
`msg.IsInit`).  Following the spec's data model — `kind`, `timestamp:
u32`, `is_init: bool`, `payload: bytes` — the message carries all four
fields; `kind` stands for the Go field `Type` (a reserved word in Lean). -/
structure MediaMessage where
  kind : MessageType
  Timestamp : Nat
  IsInit : Bool
  Payload : List Nat
  deriving DecidableEq, Repr

/-- Modelled from the spec: `clone` is "a deep copy used only for caching
init messages", so every field is copied.  (The surviving older
`Clone` copies `Type`, `Timestamp` and the payload bytes; the `IsInit`
copy is dictated by the spec's deep-copy contract.) -/
def MediaMessage.Clone (m : MediaMessage) : MediaMessage :=
  { kind := m.kind, Timestamp := m.Timestamp, IsInit := m.IsInit, Payload := m.Payload }

/-- Backpressure strategy, from `ringbuffer.go` (`DropOldest = 0`,
`DropNewest = 1`). -/
inductive BackpressureStrategy where
  | dropOldest
  | dropNewest
  deriving DecidableEq, Repr

/-- Ring buffer state, from `ringbuffer.go`.  Slots hold
`Option MediaMessage` because the Go backing array holds
`*MediaMessage` pointers (initially `nil`).  `writePos` and `readPos`
are free-running `uint32` counters (kept `< 2^32` by the operations),
masked only when indexing. -/
structure RingBuffer where
  buffer : List (Option MediaMessage)
  size : Nat
  mask : Nat
  writePos : Nat
  readPos : Nat
  strategy : BackpressureStrategy
  dropped : Nat
  deriving DecidableEq, Repr

/-- Round-up loop of `NewRingBuffer` (`actualSize := 1; for actualSize <
capacity { actualSize <<= 1 }`), with enough fuel for the doubling to
reach any capacity. -/
def nextPow2Go : Nat → Nat → Nat
  | _, 0 => 1
  | capacity, fuel + 1 => go capacity fuel 1
where
  go (capacity : Nat) : Nat → Nat → Nat
    | 0, acc => acc
    | f + 1, acc => if acc < capacity then go capacity f (acc <<< 1) else acc

/-- Capacity rounded up to the next power of two, as `NewRingBuffer`
computes it. -/
def nextPow2 (capacity : Nat) : Nat := nextPow2Go capacity capacity

/-- Embeds `NewRingBuffer`. -/
def NewRingBuffer (capacity : Nat) (strategy : BackpressureStrategy) : RingBuffer :=
  let actualSize := nextPow2 capacity
  { buffer := List.replicate actualSize none
    size := actualSize
    mask := actualSize - 1
    writePos := 0
    readPos := 0
    strategy := strategy
    dropped := 0 }

/-- Embeds `RingBuffer.Write`.  The argument is an `Option` because the
Go parameter is a possibly-nil `*MediaMessage`.  Mirrors the source:
load both positions, test fullness by unsigned subtraction, on full
either advance `readPos` (DropOldest) or bail out (DropNewest), then
store at `writePos & mask` and advance `writePos`. -/
def RingBuffer.Write (rb : RingBuffer) (msg : Option MediaMessage) : RingBuffer × Bool :=
  match msg with
  | none => (rb, false)
  | some m =>
    let writePos := rb.writePos
    let readPos := rb.readPos
    if u32sub writePos readPos ≥ rb.size then
      if rb.strategy = .dropOldest then
        let rb := { rb with
          dropped := (rb.dropped + 1) % U64
          readPos := (rb.readPos + 1) % U32 }
        ({ rb with
            buffer := rb.buffer.set (writePos &&& rb.mask) (some m)
            writePos := (writePos + 1) % U32 }, true)
      else
        ({ rb with dropped := (rb.dropped + 1) % U64 }, false)
    else
      ({ rb with
          buffer := rb.buffer.set (writePos &&& rb.mask) (some m)
          writePos := (writePos + 1) % U32 }, true)

/-- Embeds `RingBuffer.Read`: returns the updated buffer, the slot
content at `readPos & mask` (an `Option` since the Go slot is a
pointer), and the Go boolean result. -/
def RingBuffer.Read (rb : RingBuffer) : RingBuffer × Option MediaMessage × Bool :=
  let readPos := rb.readPos
  let writePos := rb.writePos
  if readPos = writePos then
    (rb, none, false)
  else
    let msg := rb.buffer.getD (readPos &&& rb.mask) none
    ({ rb with readPos := (readPos + 1) % U32 }, msg, true)

/-- Embeds `RingBuffer.Dropped`. -/
def RingBuffer.Dropped (rb : RingBuffer) : Nat := rb.dropped

/-- Stream key, from `streamkey.go`. -/
structure StreamKey where
  App : String
  Name : String
  deriving DecidableEq, Repr

/-- Embeds `NewStreamKey`. -/
def NewStreamKey (app name : String) : StreamKey := { App := app, Name := name }

/-- Subscriber, from `subscriber.go`: an id and its own ring buffer. -/
structure Subscriber where
  id : Nat
  buffer : RingBuffer
  deriving DecidableEq, Repr

/-- Embeds `NewSubscriber`. -/
def NewSubscriber (id capacity : Nat) (strategy : BackpressureStrategy) : Subscriber :=
  { id := id, buffer := NewRingBuffer capacity strategy }

/-- Embeds `Subscriber.Buffer`. -/
def Subscriber.Buffer (s : Subscriber) : RingBuffer := s.buffer

/-- Stream state, from the current `stream.go` (the revision with the
init-message cache).  The Go `subscribers` map is embedded as an
association list; `publisher` holds the publisher id when attached. -/
structure Stream where
  key : StreamKey
  publisher : Option Nat
  subscribers : List (Nat × Subscriber)
  nextSubID : Nat
  initVideo : Option MediaMessage
  initAudio : Option MediaMessage
  initMeta : Option MediaMessage
  deriving DecidableEq, Repr

/-- Embeds `NewStream`. -/
def NewStream (key : StreamKey) : Stream :=
  { key := key
    publisher := none
    subscribers := []
    nextSubID := 1
    initVideo := none
    initAudio := none
    initMeta := none }

/-- Go map assignment `m[id] = sub`: replace an existing binding or add
a new one. -/
def mapInsert (l : List (Nat × Subscriber)) (id : Nat) (sub : Subscriber) :
    List (Nat × Subscriber) :=
  if l.any (fun p => p.1 = id) then
    l.map (fun p => if p.1 = id then (id, sub) else p)
  else
    l ++ [(id, sub)]

/-- Embeds `Stream.AttachPublisher`. -/
def Stream.AttachPublisher (s : Stream) (id : Nat) : Stream × Bool :=
  match s.publisher with
  | some _ => (s, false)
  | none => ({ s with publisher := some id }, true)

/-- Embeds `Stream.DetachPublisher` (current revision: also clears the
three init slots). -/
def Stream.DetachPublisher (s : Stream) : Stream :=
  { s with publisher := none, initVideo := none, initAudio := none, initMeta := none }

/-- Embeds `Stream.HasPublisher`. -/
def Stream.HasPublisher (s : Stream) : Bool := s.publisher.isSome

/-- Embeds `Stream.AttachSubscriber` (current revision): take the next
id, increment `nextSubID` (a `uint64`), create the subscriber, replay
the cached init messages — metadata, then video, then audio, each only
if present — into its fresh buffer, and register it. -/
def Stream.AttachSubscriber (s : Stream) (capacity : Nat)
    (strategy : BackpressureStrategy) : Stream × Subscriber × Nat :=
  let id := s.nextSubID
  let nextID := (s.nextSubID + 1) % U64
  let sub := NewSubscriber id capacity strategy
  let sub := match s.initMeta with
    | some m => { sub with buffer := (sub.buffer.Write (some m)).1 }
    | none => sub
  let sub := match s.initVideo with
    | some m => { sub with buffer := (sub.buffer.Write (some m)).1 }
    | none => sub
  let sub := match s.initAudio with
    | some m => { sub with buffer := (sub.buffer.Write (some m)).1 }
    | none => sub
  ({ s with nextSubID := nextID, subscribers := mapInsert s.subscribers id sub }, sub, id)

/-- Embeds `Stream.DetachSubscriber` (Go `delete(s.subscribers, id)`). -/
def Stream.DetachSubscriber (s : Stream) (id : Nat) : Stream :=
  { s with subscribers := s.subscribers.filter (fun p => ¬ p.1 = id) }

/-- Embeds `Stream.cacheInitMessage`: store a deep clone of the init
message in the slot matching its kind. -/
def Stream.cacheInitMessage (s : Stream) (msg : MediaMessage) : Stream :=
  match msg.kind with
  | .video => { s with initVideo := some msg.Clone }
  | .audio => { s with initAudio := some msg.Clone }
  | .metadata => { s with initMeta := some msg.Clone }

/-- Embeds `Stream.Publish` (current revision): nil messages return at
once; init messages are cached; then the message is written into every
subscriber's ring buffer. -/
def Stream.Publish (s : Stream) (msg : Option MediaMessage) : Stream :=
  match msg with
  | none => s
  | some m =>
    let s := if m.IsInit then s.cacheInitMessage m else s
    let subs :=
      s.subscribers.map (fun p => (p.1, { p.2 with buffer := (p.2.buffer.Write (some m)).1 }))
    { s with subscribers := subs }

/-- Embeds `Stream.SubscriberCount`. -/
def Stream.SubscriberCount (s : Stream) : Nat := s.subscribers.length

/-- Embeds `Stream.IsEmpty`: no publisher and no subscribers. -/
def Stream.IsEmpty (s : Stream) : Bool :=
  s.publisher.isNone && s.subscribers.isEmpty

/-- Registry state, from `registry.go`: the `map[StreamKey]*Stream` is
embedded as an association list. -/
structure Registry where
  streams : List (StreamKey × Stream)
  deriving DecidableEq, Repr

/-- Embeds `NewRegistry`. -/
def NewRegistry : Registry := { streams := [] }

/-- Go map lookup `r.streams[key]`. -/
def Registry.Get (r : Registry) (key : StreamKey) : Option Stream :=
  (r.streams.find? (fun p => p.1 = key)).map Prod.snd

/-- Embeds `Registry.GetOrCreate`. -/
def Registry.GetOrCreate (r : Registry) (key : StreamKey) : Registry × Stream × Bool :=
  match r.Get key with
  | some s => (r, s, false)
  | none =>
    let s := NewStream key
    ({ streams := r.streams ++ [(key, s)] }, s, true)

/-- Embeds `Registry.Remove`: absent key or a non-empty stream leaves
the registry unchanged and returns `false`; an existing empty stream is
deleted and `true` returned. -/
def Registry.Remove (r : Registry) (key : StreamKey) : Registry × Bool :=
  match r.Get key with
  | none => (r, false)
  | some stream =>
    if stream.IsEmpty then
      ({ streams := r.streams.filter (fun p => ¬ p.1 = key) }, true)
    else
      (r, false)

/-- Embeds `Registry.RemoveIfEmpty`, which just calls `Remove`. -/
def Registry.RemoveIfEmpty (r : Registry) (key : StreamKey) : Registry × Bool :=
  r.Remove key

end bus

namespace flv

/-! FLV framing, embedded from `internal/core/protocol/flv`.  Of the two
revisions of `Tag.Bytes` in the snapshot, the embedding follows the
current one (the fixed 11-byte tag header whose byte 7 carries timestamp
bits 24..32), which is the layout the spec describes. -/

/-- Tag type constants, from the FLV constants file. -/
def TagTypeAudio : Nat := 8
def TagTypeVideo : Nat := 9
def TagTypeScript : Nat := 18

/-- Video frame type constant. -/
def VideoFrameKeyFrame : Nat := 1

/-- FLV tag, from `tag.go`; `kind` stands for the Go field `Type`
(a reserved word in Lean). -/
structure Tag where
  kind : Nat
  Timestamp : Nat
  Data : List Nat
  deriving DecidableEq, Repr

/-- Embeds `NewTag`. -/
def NewTag (tagType timestamp : Nat) (data : List Nat) : Tag :=
  { kind := tagType, Timestamp := timestamp, Data := data }

/-- Embeds the current `Tag.Bytes`: `type | u24 data_size | u24 ts_low |
u8 ts_ext | u24 stream_id = 0 | payload | u32 previous_tag_size`, the
writes listed in source order.  `dataSize` is Go's `uint32(len(t.Data))`
and each stored byte is the Go `byte(x >> k)` conversion. -/
def Tag.Bytes (t : Tag) : List Nat :=
  let dataSize := t.Data.length % U32
  [t.kind]
    ++ [(dataSize >>> 16) % 256, (dataSize >>> 8) % 256, dataSize % 256]
    ++ [(t.Timestamp >>> 16) % 256, (t.Timestamp >>> 8) % 256, t.Timestamp % 256,
        (t.Timestamp >>> 24) % 256]
    ++ [0, 0, 0]
    ++ t.Data
    ++ beBytes 4 ((11 + t.Data.length) % U32)

/-- Embeds `IsVideoKeyframe`: the payload's first byte has upper nibble
equal to `VideoFrameKeyFrame`. -/
def IsVideoKeyframe (payload : List Nat) : Bool :=
  match payload with
  | [] => false
  | b :: _ => b >>> 4 = VideoFrameKeyFrame

/-- Embeds `MuxAudio`: nil or non-audio messages give no tag. -/
def MuxAudio (msg : bus.MediaMessage) : Option Tag :=
  if msg.kind = .audio then some (NewTag TagTypeAudio msg.Timestamp msg.Payload) else none

/-- Embeds `MuxVideo`. -/
def MuxVideo (msg : bus.MediaMessage) : Option Tag :=
  if msg.kind = .video then some (NewTag TagTypeVideo msg.Timestamp msg.Payload) else none

/-- Embeds `MuxScript`. -/
def MuxScript (msg : bus.MediaMessage) : Option Tag :=
  if msg.kind = .metadata then some (NewTag TagTypeScript msg.Timestamp msg.Payload) else none

/-- Embeds `MuxMessage`: dispatch on the message kind. -/
def MuxMessage (msg : bus.MediaMessage) : Option Tag :=
  match msg.kind with
  | .audio => MuxAudio msg
  | .video => MuxVideo msg
  | .metadata => MuxScript msg

end flv

namespace httpflv

/-! HTTP-FLV subscriber runtime, embedded from the current revision of
`internal/svc/httpflv/subscriber.go` (the one with the keyframe gate and
timestamp rebasing).  The delivery loop is embedded as a pure function
over the sequence of messages successfully read from the ring buffer
(empty-buffer polls only yield the scheduler and read again; write
errors end the loop and cut the remaining output). -/

/-- Per-subscriber delivery state: keyframe gate and timestamp rebase. -/
structure SubState where
  gotKeyframe : Bool
  tsOffset : Nat
  tsBaseSet : Bool
  deriving DecidableEq, Repr

/-- Fresh delivery state of a newly created subscriber. -/
def initialSubState : SubState :=
  { gotKeyframe := false, tsOffset := 0, tsBaseSet := false }

/-- Embeds `Subscriber.rebaseTimestamp`: init messages map to 0, the
first non-init timestamp becomes the offset, later timestamps subtract
it, and underflow clamps to 0. -/
def rebaseTimestamp (st : SubState) (msg : bus.MediaMessage) : SubState × Nat :=
  if msg.IsInit then
    (st, 0)
  else
    let st :=
      if st.tsBaseSet then st
      else { st with tsOffset := msg.Timestamp, tsBaseSet := true }
    if msg.Timestamp < st.tsOffset then (st, 0) else (st, msg.Timestamp - st.tsOffset)

/-- One iteration of the `ProcessMessages` loop body on a message read
from the buffer: keyframe gating, muxing, timestamp rebase.  Returns
the new state and the FLV tag written, if any. -/
def procStep (st : SubState) (msg : bus.MediaMessage) : SubState × Option flv.Tag :=
  if ¬ st.gotKeyframe ∧ ¬ msg.IsInit then
    if msg.kind = .video ∧ flv.IsVideoKeyframe msg.Payload then
      emit { st with gotKeyframe := true } msg
    else
      (st, none)
  else
    emit st msg
where
  /-- Mux and rebase, as the loop does after the gate. -/
  emit (st : SubState) (msg : bus.MediaMessage) : SubState × Option flv.Tag :=
    match flv.MuxMessage msg with
    | none => (st, none)
    | some tag =>
      let (st, ts) := rebaseTimestamp st msg
      (st, some { tag with Timestamp := ts })

/-- The `ProcessMessages` loop over a sequence of messages read from the
ring buffer, collecting the FLV tags written in order. -/
def processMessages : SubState → List bus.MediaMessage → List flv.Tag
  | _, [] => []
  | st, msg :: rest =>
    match procStep st msg with
    | (st', none) => processMessages st' rest
    | (st', some tag) => tag :: processMessages st' rest

/-- The messages a subscriber emits, paired with their rebased
timestamps — the same loop as `processMessages`, but keeping the bus
message alongside the written tag so properties about `is_init` and
payload bytes can be stated directly. -/
def processTrace : SubState → List bus.MediaMessage → List (bus.MediaMessage × Nat)
  | _, [] => []
  | st, msg :: rest =>
    match procStep st msg with
    | (st', none) => processTrace st' rest
    | (st', some tag) => (msg, tag.Timestamp) :: processTrace st' rest

end httpflv

/-- Byte list of an ASCII string literal (all string constants in the
embedded sources are ASCII, so this equals Go's byte view of them). -/
def ascii (s : String) : List Nat := s.data.map Char.toNat

/-- IEEE-754 bit pattern of the Go `float64` value `0.0`. -/
def f64Zero : Nat := 0

/-- IEEE-754 bit pattern of the Go `float64` value `1.0`. -/
def f64One : Nat := 0x3FF0000000000000

/-- IEEE-754 bit pattern of the Go `float64` value `31.0`. -/
def f64ThirtyOne : Nat := 0x403F000000000000

namespace rtmp

/-! RTMP ingest, embedded from `internal/core/protocol/rtmp` and the
current revision of the service session (`HandleConnect` with the
node-media-server control-message order).  Emission is embedded at
message granularity: `WriteMessage` appends one message record to the
session's wire trace (the chunk-level framing of §4.6 is below the
claims considered here). -/

/-- Message type ids, from the RTMP constants file. -/
def MessageTypeSetChunkSize : Nat := 1
def MessageTypeUserCtrl : Nat := 4
def MessageTypeWinAckSize : Nat := 5
def MessageTypeSetPeerBandwidth : Nat := 6
def MessageTypeAudio : Nat := 8
def MessageTypeVideo : Nat := 9
def MessageTypeDataAMF0 : Nat := 18
def MessageTypeCommandAMF0 : Nat := 20

/-- Embeds `CreateWindowAckSize`: 4 big-endian bytes. -/
def CreateWindowAckSize (size : Nat) : List Nat := beBytes 4 size

/-- Embeds `CreateSetPeerBandwidth`: 4 big-endian bytes plus the limit
type byte. -/
def CreateSetPeerBandwidth (size : Nat) (limitType : Nat) : List Nat :=
  beBytes 4 size ++ [limitType % 256]

/-- Embeds `CreateSetChunkSize`: 4 big-endian bytes. -/
def CreateSetChunkSize (size : Nat) : List Nat := beBytes 4 size

/-- One RTMP message as handed to `Session.WriteMessage`. -/
structure WireMessage where
  csid : Nat
  msgType : Nat
  timestamp : Nat
  streamID : Nat
  body : List Nat
  deriving DecidableEq, Repr

/-- Service session state for the connect exchange: the negotiated app,
the recorded ack window, the outgoing chunk size, and the trace of
messages written so far.  The outgoing-chunk-size field and its setter
follow the spec (§4.6: "the *outgoing* chunk size is set locally — we
raise to 4096 after `connect`"), since the current `session.go` revision
defining `SetWriteChunkSize` is absent from the snapshot. -/
structure ServiceSession where
  app : List Nat
  ackWindowSize : Nat
  writeChunkSize : Nat
  wire : List WireMessage
  deriving DecidableEq, Repr

/-- A fresh service session after the handshake: default read/write
chunk size 128, nothing written yet. -/
def newServiceSession : ServiceSession :=
  { app := [], ackWindowSize := 0, writeChunkSize := 128, wire := [] }

/-- Embeds `Session.WriteMessage` at message granularity: append the
message to the wire trace. -/
def WriteMessage (s : ServiceSession) (csid msgType timestamp streamID : Nat)
    (body : List Nat) : ServiceSession :=
  { s with wire := s.wire ++ [{ csid := csid, msgType := msgType, timestamp := timestamp,
                                streamID := streamID, body := body }] }

/-- Embeds `toFloat64` restricted to AMF0 values: a decoded AMF0 number
is the only numeric case, anything else falls back to `1.0`. -/
def toFloat64 (v : amf0.Value) : Nat :=
  match v with
  | .num bits => bits
  | _ => f64One

/-- Embeds `toObject` restricted to AMF0 values: an object yields its
fields, anything else (including null) yields Go `nil`. -/
def toObject (v : amf0.Value) : Option (List (List Nat × amf0.Value)) :=
  match v with
  | .object fs => some fs
  | _ => none

/-- Embeds `sendConnectResult`: build the `_result` command — command
name, echoed transaction id, `{fmsVer, capabilities}`, `{level, code,
description, objectEncoding}` — encode it with `amf0.EncodeCommand`,
and write it as message type 20 on chunk stream 3. -/
def sendConnectResult (s : ServiceSession) (transID : amf0.Value)
    (objectEncoding : Nat) : ServiceSession :=
  let transIDFloat := toFloat64 transID
  let cmdObj : amf0.Value := .object
    [(ascii "fmsVer", .str (ascii "FMS/3,0,1,123")),
     (ascii "capabilities", .num f64ThirtyOne)]
  let info : amf0.Value := .object
    [(ascii "level", .str (ascii "status")),
     (ascii "code", .str (ascii "NetConnection.Connect.Success")),
     (ascii "description", .str (ascii "Connection succeeded.")),
     (ascii "objectEncoding", .num objectEncoding)]
  let body := amf0.EncodeCommand [.str (ascii "_result"), .num transIDFloat, cmdObj, info]
  WriteMessage s 3 MessageTypeCommandAMF0 0 0 body

/-- Embeds the current `HandleConnect`: reject short commands; extract
`app` (default `"live"`) and `objectEncoding` (default `0`) from the
command object when present; then emit, in order, Window-Ack-Size
5000000 (type 5, recording the ack window), Set-Peer-Bandwidth 5000000
dynamic (type 6), Set-Chunk-Size 4096 (type 1, adopting 4096 as the
outgoing chunk size), and the `_result` command (type 20). -/
def HandleConnect (s : ServiceSession) (command : List amf0.Value) :
    Except String ServiceSession :=
  if command.length < 2 then
    .error "invalid connect command: need at least 2 elements"
  else
    let cmdObj :=
      if command.length ≥ 3 then toObject (command.getD 2 .null) else none
    let app :=
      match cmdObj with
      | some fs =>
        match (fs.find? (fun p => p.1 = ascii "app")).map Prod.snd with
        | some (.str v) => v
        | _ => ascii "live"
      | none => ascii "live"
    let objectEncoding :=
      match cmdObj with
      | some fs =>
        match (fs.find? (fun p => p.1 = ascii "objectEncoding")).map Prod.snd with
        | some (.num bits) => bits
        | _ => f64Zero
      | none => f64Zero
    let s := { s with app := app }
    let ackWindowSize := 5000000
    let s := WriteMessage s 2 MessageTypeWinAckSize 0 0 (CreateWindowAckSize ackWindowSize)
    let s := { s with ackWindowSize := ackWindowSize }
    let s := WriteMessage s 2 MessageTypeSetPeerBandwidth 0 0 (CreateSetPeerBandwidth 5000000 2)
    let s := WriteMessage s 2 MessageTypeSetChunkSize 0 0 (CreateSetChunkSize 4096)
    let s := { s with writeChunkSize := 4096 }
    .ok (sendConnectResult s (command.getD 1 .null) objectEncoding)

end rtmp

namespace bus

/-! Small executable drivers used to state the spec's concrete queue and
stream scenarios (S3, S4, init replay) over the embedded operations. -/

/-- Write a list of messages in order, collecting each `Write` result. -/
def writeSeq (rb : RingBuffer) : List MediaMessage → RingBuffer × List Bool
  | [] => (rb, [])
  | m :: rest =>
    let (rb1, ok) := rb.Write (some m)
    let (rb2, oks) := writeSeq rb1 rest
    (rb2, ok :: oks)

/-- Read `n` times in sequence, collecting each `Read` result. -/
def readN (rb : RingBuffer) : Nat → RingBuffer × List (Option MediaMessage × Bool)
  | 0 => (rb, [])
  | n + 1 =>
    let (rb1, msg, ok) := rb.Read
    let (rb2, rest) := readN rb1 n
    (rb2, (msg, ok) :: rest)

/-- Alternate one `Write` with one `Read`, collecting the read results —
the spec's S4 wrap scenario driver. -/
def writeReadSeq (rb : RingBuffer) : List MediaMessage → RingBuffer × List (Option MediaMessage × Bool)
  | [] => (rb, [])
  | m :: rest =>
    let (rb1, _) := rb.Write (some m)
    let (rb2, msg, ok) := rb1.Read
    let (rb3, out) := writeReadSeq rb2 rest
    (rb3, (msg, ok) :: out)

/-- A distinct video message per index, as the queue scenarios use. -/
def vmsg (i : Nat) : MediaMessage :=
  { kind := .video, Timestamp := i, IsInit := false, Payload := [] }

end bus

end Nonchalant

open Nonchalant Nonchalant.bus Nonchalant.flv Nonchalant.httpflv Nonchalant.rtmp

/-- The `_result` response array for `connect` — command name, transaction
id 1, `{fmsVer, capabilities}`, `{level, code, description}` — the same
payload the repository's own AMF0 encode test builds. -/
def connectResultArray : List Nonchalant.amf0.Value :=
  [.str (ascii "_result"),
   .num f64One,
   .object [(ascii "fmsVer", .str (ascii "FMS/3,0,1,123")),
            (ascii "capabilities", .num f64ThirtyOne)],
   .object [(ascii "level", .str (ascii "status")),
            (ascii "code", .str (ascii "NetConnection.Connect.Success")),
            (ascii "description", .str (ascii "Connection succeeded."))]]

/-- C1: the claim says `EncodeCommand` writes the values as a sequence, so
the first byte for a `_result` command is 0x02 (string marker) and never
0x0A.  The code does the opposite: `EncodeCommand` encodes the command
through `encodeArray`, so for every command array the first byte on the
wire is the StrictArray marker 0x0A — in particular for the connect
`_result` array, contradicting the repository's own test
`TestEncodeCommand_NoStrictArray`. -/
theorem C1_encode_command_wraps_strict_array :
    (∀ arr : List Nonchalant.amf0.Value,
      (Nonchalant.amf0.EncodeCommand arr).head? = some Nonchalant.amf0.TypeStrictArray) ∧
    (Nonchalant.amf0.EncodeCommand connectResultArray).head? = some 10 ∧
    ¬ (Nonchalant.amf0.EncodeCommand connectResultArray).head? = some 2 :=
  ⟨fun _ => rfl, rfl, by decide⟩

/-- C9: publishing a nil message is a total no-op on the stream — no
subscriber buffer is written, no init slot is touched, no dropped
counter moves — and a nil ring-buffer write returns false leaving the
buffer unchanged. -/
theorem C9_nil_message_noop :
    (∀ s : Stream, s.Publish none = s) ∧
    (∀ rb : RingBuffer, rb.Write none = (rb, false)) :=
  ⟨fun _ => rfl, fun _ => rfl⟩

/-- C8: `Registry.Remove` (and `RemoveIfEmpty`, which is the same
function) returns false and leaves the registry unchanged when the key
is absent or the stream is non-empty (has a publisher or a subscriber),
and deletes the entry returning true exactly when the stream exists and
is empty. -/
theorem C8_remove_only_when_empty (r : Registry) (key : StreamKey) :
    (r.Get key = none → r.Remove key = (r, false)) ∧
    (∀ st, r.Get key = some st → st.IsEmpty = false → r.Remove key = (r, false)) ∧
    (∀ st, r.Get key = some st → st.IsEmpty = true →
      r.Remove key = ({ streams := r.streams.filter (fun p => ¬ p.1 = key) }, true)) ∧
    (∀ st : Stream, st.IsEmpty = false ↔ (st.publisher.isSome ∨ st.subscribers ≠ [])) ∧
    r.RemoveIfEmpty key = r.Remove key := by
  refine ⟨?_, ?_, ?_, ?_, rfl⟩
  · intro h; simp [Registry.Remove, h]
  · intro st h hne; simp [Registry.Remove, h, hne]
  · intro st h he; simp [Registry.Remove, h, he]
  · intro st
    cases hp : st.publisher <;> cases hs : st.subscribers <;>
      simp [Stream.IsEmpty, hp, hs]

/-- Registry fixture for the C8 witness: one stream with a publisher. -/
def w8key : StreamKey := NewStreamKey "live" "w8"

/-- Stream fixture for the C8 witness. -/
def w8st : Stream := ((NewStream w8key).AttachPublisher 1).1

/-- Registry fixture for the C8 witness. -/
def w8reg : Registry := { streams := [(w8key, w8st)] }

/-- Witness for C8: a registry holding one stream with a publisher
attached refuses to remove it and stays unchanged. -/
theorem C8_remove_witness :
    w8reg.Get w8key = some w8st ∧ w8st.IsEmpty = false ∧
      w8reg.Remove w8key = (w8reg, false) :=
  ⟨by decide, by decide,
    (C8_remove_only_when_empty w8reg w8key).2.1 w8st (by decide) (by decide)⟩

/-- Length of a big-endian byte encoding. -/
theorem beBytes_length (n x : Nat) : (beBytes n x).length = n := by
  induction n generalizing x with
  | zero => rfl
  | succ k ih => simp [beBytes, ih]

/-- Decoding a 3-byte big-endian run recovers the low 24 bits. -/
theorem readBE_beBytes3 (x : Nat) : readBE (beBytes 3 x) = x % 2 ^ 24 := by
  simp only [beBytes, readBE, List.foldl, Nat.shiftRight_eq_div_pow]
  norm_num
  omega

/-- Decoding a 4-byte big-endian run recovers the low 32 bits. -/
theorem readBE_beBytes4 (x : Nat) : readBE (beBytes 4 x) = x % 2 ^ 32 := by
  simp only [beBytes, readBE, List.foldl, Nat.shiftRight_eq_div_pow]
  norm_num
  omega

/-- Reading a just-set slot: `getD` of `set` at the same in-range index. -/
theorem getD_set_self {α : Type} (l : List α) (i : Nat) (a d : α) (h : i < l.length) :
    (l.set i a).getD i d = a := by
  simp [List.getD_eq_getElem?_getD, List.getElem?_set_eq_of_lt a h]

/-- C4: the spec's S4 scenario — on a capacity-4 queue, 100 alternating
write/read iterations return the i-th written message at the i-th read
and leave the queue empty — together with the wrap-safety of the
free-running counters: from any empty state (`read_pos == write_pos`,
any counter value up to `2^32 - 1`), a write succeeds, the following read
returns exactly the written message, and the queue is empty again.  The
counters are compared unmasked, so this holds across `uint32` wrap. -/
theorem C4_queue_wrap_roundtrip :
    ((writeReadSeq (NewRingBuffer 4 .dropOldest) ((List.range 100).map vmsg)).2 =
        (List.range 100).map (fun i => (some (vmsg i), true)) ∧
      (writeReadSeq (NewRingBuffer 4 .dropOldest) ((List.range 100).map vmsg)).1.Read.2.2
        = false) ∧
    (∀ (rb : RingBuffer) (m : MediaMessage),
      rb.buffer.length = rb.size → rb.mask = rb.size - 1 → 1 ≤ rb.size →
      rb.writePos < U32 → rb.readPos = rb.writePos →
      (rb.Write (some m)).2 = true ∧
      (rb.Write (some m)).1.Read.2 = (some m, true) ∧
      (rb.Write (some m)).1.Read.1.readPos = (rb.Write (some m)).1.Read.1.writePos) := by
  refine ⟨by decide, ?_⟩
  intro rb m hlen hmask hsz hw hre
  have hnotfull : ¬ u32sub rb.writePos rb.readPos ≥ rb.size := by
    rw [hre]
    simp only [u32sub, Nat.add_sub_cancel, Nat.mod_self]
    omega
  have hne : ¬ (rb.readPos = (rb.writePos + 1) % U32) := by
    rw [hre]
    simp only [U32]
    omega
  have hidx : rb.writePos &&& rb.mask < rb.buffer.length := by
    calc rb.writePos &&& rb.mask ≤ rb.mask := Nat.and_le_right
    _ < rb.size := by omega
    _ = rb.buffer.length := hlen.symm
  refine ⟨?_, ?_, ?_⟩
  · simp [RingBuffer.Write, hnotfull]
  · simp only [RingBuffer.Write, if_neg hnotfull, RingBuffer.Read]
    rw [if_neg (by simpa using hne)]
    simp [hre, List.getD_eq_getElem?_getD, List.getElem?_set_eq_of_lt _ hidx]
  · simp only [RingBuffer.Write, if_neg hnotfull, RingBuffer.Read]
    rw [if_neg (by simpa using hne)]
    simp [hre]

/-- Ring buffer fixture for the C4 witness: an empty capacity-4 queue
whose free-running counters sit at the `uint32` wrap boundary. -/
def rbWrap : RingBuffer :=
  { NewRingBuffer 4 .dropOldest with writePos := U32 - 1, readPos := U32 - 1 }

/-- Witness for C4: a write/read round trip at counter value `2^32 - 1`
returns the written message and restores emptiness across the wrap. -/
theorem C4_queue_wrap_witness :
    rbWrap.buffer.length = rbWrap.size ∧ rbWrap.mask = rbWrap.size - 1 ∧
      1 ≤ rbWrap.size ∧ rbWrap.writePos < U32 ∧ rbWrap.readPos = rbWrap.writePos ∧
      ((rbWrap.Write (some (vmsg 0))).2 = true ∧
        (rbWrap.Write (some (vmsg 0))).1.Read.2 = (some (vmsg 0), true) ∧
        (rbWrap.Write (some (vmsg 0))).1.Read.1.readPos =
          (rbWrap.Write (some (vmsg 0))).1.Read.1.writePos) :=
  ⟨by decide, by decide, by decide, by decide, by decide,
    C4_queue_wrap_roundtrip.2 rbWrap (vmsg 0) (by decide) (by decide) (by decide)
      (by decide) (by decide)⟩

/-- C3: the spec's S3 scenario — a capacity-4 DropOldest queue absorbs
eight distinct writes, all returning true; the four subsequent reads
return exactly the last four messages in write order and the dropped
counter reads 4 — together with the general full-buffer step: on a full
DropOldest buffer a write increments `dropped`, advances `read_pos` by
one, stores the message at `write_pos & mask`, advances `write_pos`,
and returns true (counter arithmetic modulo the Go integer widths). -/
theorem C3_drop_oldest_backpressure :
    ((writeSeq (NewRingBuffer 4 .dropOldest) ((List.range 8).map vmsg)).2 =
        List.replicate 8 true ∧
      (writeSeq (NewRingBuffer 4 .dropOldest) ((List.range 8).map vmsg)).1.Dropped = 4 ∧
      (readN (writeSeq (NewRingBuffer 4 .dropOldest) ((List.range 8).map vmsg)).1 4).2 =
        (List.range 4).map (fun i => (some (vmsg (4 + i)), true))) ∧
    (∀ (rb : RingBuffer) (m : MediaMessage),
      rb.strategy = .dropOldest →
      u32sub rb.writePos rb.readPos ≥ rb.size →
      rb.Write (some m) =
        ({ rb with
            dropped := (rb.dropped + 1) % U64
            readPos := (rb.readPos + 1) % U32
            buffer := rb.buffer.set (rb.writePos &&& rb.mask) (some m)
            writePos := (rb.writePos + 1) % U32 }, true)) := by
  refine ⟨by decide, ?_⟩
  intro rb m hstrat hfull
  simp [RingBuffer.Write, hstrat, hfull]

/-- Ring buffer fixture for the C3 witness: the capacity-4 queue after
the eight writes of S3, which is full. -/
def rbFull4 : RingBuffer :=
  (writeSeq (NewRingBuffer 4 .dropOldest) ((List.range 8).map vmsg)).1

/-- Witness for C3: the full-buffer DropOldest step applied to the
concrete full queue of S3. -/
theorem C3_drop_oldest_witness :
    rbFull4.strategy = .dropOldest ∧
      u32sub rbFull4.writePos rbFull4.readPos ≥ rbFull4.size ∧
      rbFull4.Write (some (vmsg 8)) =
        ({ rbFull4 with
            dropped := (rbFull4.dropped + 1) % U64
            readPos := (rbFull4.readPos + 1) % U32
            buffer := rbFull4.buffer.set (rbFull4.writePos &&& rbFull4.mask) (some (vmsg 8))
            writePos := (rbFull4.writePos + 1) % U32 }, true) :=
  ⟨by decide, by decide,
    C3_drop_oldest_backpressure.2 rbFull4 (vmsg 8) (by decide) (by decide)⟩

/-- C5: `Tag.Bytes` of a tag with an `N`-byte payload and a `uint32`
timestamp is exactly `1 + 3 + 3 + 1 + 3 + N + 4` bytes, laid out as
`type | u24 data_size | u24 ts_low | u8 ts_ext | u24 stream_id = 0 |
payload | u32 previous_tag_size`, where `ts_low` carries timestamp bits
0..24, `ts_ext` carries bits 24..32, and the previous-tag-size trailer
decodes to `11 + N`.  (`11 + N < 2^32` keeps the `uint32` trailer
exact, as for every payload Go can hold.) -/
theorem C5_flv_tag_layout (ty ts : Nat) (data : List Nat)
    (hts : ts < U32) (hN : 11 + data.length < U32) :
    (Tag.mk ty ts data).Bytes.length = 1 + 3 + 3 + 1 + 3 + data.length + 4 ∧
    (Tag.mk ty ts data).Bytes =
      [ty] ++ beBytes 3 data.length ++ beBytes 3 ts ++ [ts >>> 24]
        ++ [0, 0, 0] ++ data ++ beBytes 4 (11 + data.length) ∧
    readBE (((Tag.mk ty ts data).Bytes.drop 4).take 3) = ts % 2 ^ 24 ∧
    (Tag.mk ty ts data).Bytes.getD 7 0 = ts / 2 ^ 24 ∧
    readBE ((Tag.mk ty ts data).Bytes.drop (11 + data.length)) = 11 + data.length := by
  simp only [U32] at hts hN
  have hds : data.length % U32 = data.length := Nat.mod_eq_of_lt (by simp only [U32]; omega)
  have hpv : (11 + data.length) % U32 = 11 + data.length :=
    Nat.mod_eq_of_lt (by simp only [U32]; omega)
  have hext : ts >>> 24 % 256 = ts >>> 24 := by
    rw [Nat.shiftRight_eq_div_pow]
    exact Nat.mod_eq_of_lt (by omega)
  have hb : (Tag.mk ty ts data).Bytes =
      [ty] ++ beBytes 3 data.length ++ beBytes 3 ts ++ [ts >>> 24]
        ++ [0, 0, 0] ++ data ++ beBytes 4 (11 + data.length) := by
    simp only [Tag.Bytes, hds, hpv, beBytes, hext]
    norm_num
  have hexp : (Tag.mk ty ts data).Bytes =
      ty :: (data.length >>> 16) % 256 :: (data.length >>> 8) % 256 :: data.length % 256 ::
      (ts >>> 16) % 256 :: (ts >>> 8) % 256 :: ts % 256 :: (ts >>> 24) ::
      0 :: 0 :: 0 :: (data ++
        [((11 + data.length) >>> 24) % 256, ((11 + data.length) >>> 16) % 256,
         ((11 + data.length) >>> 8) % 256, (11 + data.length) % 256]) := by
    rw [hb]
    simp [beBytes]
  refine ⟨?_, hb, ?_, ?_, ?_⟩
  · rw [hexp]
    simp
    omega
  · rw [hexp]
    have hdt : ((ty :: (data.length >>> 16) % 256 :: (data.length >>> 8) % 256 ::
        data.length % 256 ::
        (ts >>> 16) % 256 :: (ts >>> 8) % 256 :: ts % 256 :: (ts >>> 24) ::
        0 :: 0 :: 0 :: (data ++
          [((11 + data.length) >>> 24) % 256, ((11 + data.length) >>> 16) % 256,
           ((11 + data.length) >>> 8) % 256, (11 + data.length) % 256])).drop 4).take 3
        = [(ts >>> 16) % 256, (ts >>> 8) % 256, ts % 256] := by
      simp
    rw [hdt, show [(ts >>> 16) % 256, (ts >>> 8) % 256, ts % 256] = beBytes 3 ts from by
      simp [beBytes], readBE_beBytes3]
  · rw [hexp]
    simp [List.getD]
    rw [Nat.shiftRight_eq_div_pow]
  · have hexp2 : (Tag.mk ty ts data).Bytes =
        (ty :: (data.length >>> 16) % 256 :: (data.length >>> 8) % 256 :: data.length % 256 ::
         (ts >>> 16) % 256 :: (ts >>> 8) % 256 :: ts % 256 :: (ts >>> 24) ::
         0 :: 0 :: 0 :: data) ++ beBytes 4 (11 + data.length) := by
      rw [hexp]
      simp [beBytes]
    have hflen : (ty :: (data.length >>> 16) % 256 :: (data.length >>> 8) % 256 ::
        data.length % 256 ::
        (ts >>> 16) % 256 :: (ts >>> 8) % 256 :: ts % 256 :: (ts >>> 24) ::
        0 :: 0 :: 0 :: data).length = 11 + data.length := by
      simp
      omega
    rw [hexp2, ← hflen, List.drop_left, readBE_beBytes4]
    omega

/-- The init messages a stream holds, in the replay order of
`AttachSubscriber`: metadata, then video, then audio, each if present. -/
def cachedInits (s : Stream) : List MediaMessage :=
  [s.initMeta, s.initVideo, s.initAudio].filterMap id

/-- Final buffer state after writing a list of messages in order. -/
def writeList (rb : RingBuffer) (msgs : List MediaMessage) : RingBuffer :=
  (writeSeq rb msgs).1

/-- The buffer a new subscriber receives is the fresh ring with the
cached init messages written in the fixed order. -/
theorem attach_buffer_eq (s : Stream) (c : Nat) (strat : BackpressureStrategy) :
    (s.AttachSubscriber c strat).2.1.buffer = writeList (NewRingBuffer c strat) (cachedInits s) := by
  cases hm : s.initMeta <;> cases hv : s.initVideo <;> cases ha : s.initAudio <;>
    simp [Stream.AttachSubscriber, cachedInits, writeList, writeSeq, NewSubscriber,
      hm, hv, ha]

/-- The round-up loop of `NewRingBuffer` always lands on a power of
two. -/
theorem nextPow2_pow (c : Nat) : ∃ k, nextPow2 c = 2 ^ k := by
  have go_pow : ∀ (f j : Nat), ∃ k, nextPow2Go.go c f (2 ^ j) = 2 ^ k := by
    intro f
    induction f with
    | zero => intro j; exact ⟨j, rfl⟩
    | succ n ih =>
      intro j
      by_cases h : 2 ^ j < c
      · have h2 : (2 ^ j) <<< 1 = 2 ^ (j + 1) := by
          rw [Nat.shiftLeft_eq, pow_one, pow_succ]
        simp only [nextPow2Go.go, if_pos h, h2]
        exact ih (j + 1)
      · exact ⟨j, by simp [nextPow2Go.go, if_neg h]⟩
  match c with
  | 0 => exact ⟨0, rfl⟩
  | Nat.succ n =>
    have := go_pow n 0
    simpa [nextPow2, nextPow2Go] using this

/-- Result of the first `n` linear writes into a fresh buffer: slot `i`
onward holds the messages. -/
def placeAt : Nat → List MediaMessage → List (Option MediaMessage) → List (Option MediaMessage)
  | _, [], b => b
  | i, m :: rest, b => placeAt (i + 1) rest (b.set i (some m))

/-- Linear writes do not change the backing length. -/
theorem placeAt_length (ms : List MediaMessage) :
    ∀ (i : Nat) (b : List (Option MediaMessage)), (placeAt i ms b).length = b.length := by
  induction ms with
  | nil => intro i b; rfl
  | cons m rest ih => intro i b; simp [placeAt, ih]

/-- Slots below the write start are untouched by linear writes. -/
theorem placeAt_getD_lt (ms : List MediaMessage) :
    ∀ (i j : Nat) (b : List (Option MediaMessage)), j < i →
      (placeAt i ms b).getD j none = b.getD j none := by
  induction ms with
  | nil => intro i j b _; rfl
  | cons m rest ih =>
    intro i j b hj
    simp only [placeAt]
    rw [ih (i + 1) j _ (by omega)]
    simp [List.getD_eq_getElem?_getD, List.getElem?_set_ne (by omega : i ≠ j)]

/-- Linear writes place message `t` at slot `i + t`. -/
theorem placeAt_getD (ms : List MediaMessage) :
    ∀ (i t : Nat) (b : List (Option MediaMessage)),
      i + ms.length ≤ b.length → t < ms.length →
      (placeAt i ms b).getD (i + t) none = ms[t]? := by
  induction ms with
  | nil => intro i t b _ ht; simp at ht
  | cons m rest ih =>
    intro i t b hb ht
    match t with
    | 0 =>
      simp only [placeAt, Nat.add_zero]
      rw [placeAt_getD_lt rest (i + 1) i _ (by omega)]
      have hi : i < (b.set i (some m)).length := by
        simp only [List.length_set]
        simp only [List.length_cons] at hb
        omega
      rw [getD_set_self _ _ _ _ (by simpa using hi)]
      simp
    | Nat.succ u =>
      simp only [placeAt]
      have : i + (u + 1) = (i + 1) + u := by omega
      rw [this, ih (i + 1) u _
        (by simp only [List.length_set]; simp only [List.length_cons] at hb; omega)
        (by simp only [List.length_cons] at ht; omega)]
      simp

/-- Writes into a linear (unwrapped) region of the ring: each write
succeeds and the buffer accumulates the messages in order. -/
theorem writeList_linear (ms : List MediaMessage) :
    ∀ (rb : RingBuffer) (i k : Nat),
      rb.size = 2 ^ k → rb.mask = rb.size - 1 → rb.buffer.length = rb.size →
      rb.readPos = 0 → rb.writePos = i →
      i + ms.length ≤ rb.size → i + ms.length < U32 →
      writeList rb ms =
        { rb with buffer := placeAt i ms rb.buffer, writePos := i + ms.length } := by
  induction ms with
  | nil =>
    intro rb i k hsz hmask hlen hr hw hle hU
    simp only [writeList, writeSeq, placeAt, List.length_nil, Nat.add_zero, ← hw]
  | cons m rest ih =>
    intro rb i k hsz hmask hlen hr hw hle hU
    have hiU : i < U32 := by simp only [List.length_cons] at hU; omega
    have hiS : i < rb.size := by simp only [List.length_cons] at hle; omega
    have hused : u32sub rb.writePos rb.readPos = i := by
      rw [hw, hr]
      simp only [u32sub, Nat.sub_zero, Nat.add_mod_left]
      exact Nat.mod_eq_of_lt hiU
    have hnotfull : ¬ u32sub rb.writePos rb.readPos ≥ rb.size := by
      rw [hused]; omega
    have hidx : rb.writePos &&& rb.mask = i := by
      rw [hw, hmask, hsz, Nat.and_pow_two_sub_one_eq_mod]
      rw [← hsz]
      exact Nat.mod_eq_of_lt hiS
    have hw1 : (rb.writePos + 1) % U32 = i + 1 := by
      rw [hw]
      exact Nat.mod_eq_of_lt (by simp only [List.length_cons] at hU; omega)
    have hstep : writeList rb (m :: rest) =
        writeList { rb with buffer := rb.buffer.set i (some m), writePos := i + 1 } rest := by
      simp only [writeList, writeSeq, RingBuffer.Write, if_neg hnotfull, hidx, hw1]
    rw [hstep, ih { rb with buffer := rb.buffer.set i (some m), writePos := i + 1 } (i + 1) k
      hsz hmask
      (show (rb.buffer.set i (some m)).length = rb.size from by simp [hlen])
      hr rfl
      (show i + 1 + rest.length ≤ rb.size from by
        simp only [List.length_cons] at hle; omega)
      (show i + 1 + rest.length < U32 from by
        simp only [List.length_cons] at hU; omega)]
    simp only [placeAt, List.length_cons]
    congr 1
    omega

/-- Reads over a linear region of the ring: each read returns the next
stored message in order, ending at the write position. -/
theorem readN_linear (suf : List MediaMessage) :
    ∀ (pre : List MediaMessage) (rb : RingBuffer) (k : Nat),
      rb.size = 2 ^ k → rb.mask = rb.size - 1 →
      rb.buffer = placeAt 0 (pre ++ suf) (List.replicate rb.size none) →
      rb.readPos = pre.length → rb.writePos = pre.length + suf.length →
      pre.length + suf.length ≤ rb.size → pre.length + suf.length < U32 →
      (readN rb suf.length).2 = suf.map (fun m => (some m, true)) ∧
      (readN rb suf.length).1 = { rb with readPos := pre.length + suf.length } := by
  induction suf with
  | nil =>
    intro pre rb k hsz hmask hbuf hr hw hle hU
    refine ⟨rfl, ?_⟩
    simp only [readN, List.length_nil, Nat.add_zero, ← hr]
  | cons m rest ih =>
    intro pre rb k hsz hmask hbuf hr hw hle hU
    have hne : ¬ rb.readPos = rb.writePos := by
      rw [hr, hw]; simp only [List.length_cons]; omega
    have hpreS : pre.length < rb.size := by simp only [List.length_cons] at hle; omega
    have hidx : rb.readPos &&& rb.mask = pre.length := by
      rw [hr, hmask, hsz, Nat.and_pow_two_sub_one_eq_mod, ← hsz]
      exact Nat.mod_eq_of_lt hpreS
    have hslot : rb.buffer.getD pre.length none = some m := by
      rw [hbuf]
      have := placeAt_getD (pre ++ m :: rest) 0 pre.length (List.replicate rb.size none)
        (by simp only [List.length_replicate, List.length_append, List.length_cons,
              Nat.zero_add]
            simp only [List.length_cons] at hle
            omega)
        (by simp [List.length_append])
      simp only [Nat.zero_add] at this
      rw [this, List.getElem?_append_right (by omega), Nat.sub_self]
      simp
    have hr1 : (rb.readPos + 1) % U32 = pre.length + 1 := by
      rw [hr]
      exact Nat.mod_eq_of_lt (by simp only [List.length_cons] at hU; omega)
    have hstep : rb.Read =
        ({ rb with readPos := pre.length + 1 }, some m, true) := by
      simp only [RingBuffer.Read, if_neg hne, hidx, hslot, hr1]
    have hrec := ih (pre ++ [m]) { rb with readPos := pre.length + 1 } k
      hsz hmask
      (show rb.buffer = placeAt 0 ((pre ++ [m]) ++ rest) (List.replicate rb.size none) from by
        rw [hbuf]; congr 1; simp)
      (show pre.length + 1 = (pre ++ [m]).length from by simp)
      (show rb.writePos = (pre ++ [m]).length + rest.length from by
        rw [hw]; simp; omega)
      (show (pre ++ [m]).length + rest.length ≤ rb.size from by
        simp only [List.length_append, List.length_cons, List.length_nil]
        simp only [List.length_cons] at hle; omega)
      (show (pre ++ [m]).length + rest.length < U32 from by
        simp only [List.length_append, List.length_cons, List.length_nil]
        simp only [List.length_cons] at hU; omega)
    refine ⟨?_, ?_⟩
    · simp only [List.length_cons, readN, hstep, List.map_cons]
      rw [hrec.1]
    · simp only [List.length_cons, readN, hstep]
      have h2 := hrec.2
      simp only [List.length_append, List.length_cons, List.length_nil] at h2
      rw [h2]
      congr 1
      omega

/-- Metadata init message for the C2 stream fixture. -/
def c2meta : MediaMessage :=
  { kind := .metadata, Timestamp := 0, IsInit := true, Payload := [2] }

/-- Video init message (AVC sequence header shape) for the C2 fixture. -/
def c2video : MediaMessage :=
  { kind := .video, Timestamp := 0, IsInit := true, Payload := [23, 0] }

/-- Audio init message (AAC sequence header shape) for the C2 fixture. -/
def c2audio : MediaMessage :=
  { kind := .audio, Timestamp := 0, IsInit := true, Payload := [175, 0] }

/-- Stream fixture for C2: after a publisher published the three init
messages, all three init slots are cached. -/
def c2stream : Stream :=
  ((((NewStream (NewStreamKey "live" "s")).AttachPublisher 1).1.Publish
      (some c2meta)).Publish (some c2video)).Publish (some c2audio)

/-- C2 counterexample: with all three init messages cached, attaching a
subscriber with queue capacity 1 does not deliver the cached init
messages — the DropOldest replay overwrites them and the queue holds
only the audio init.  So the claim fails for calls whose capacity is
below the number of cached init messages. -/
theorem C2_capacity_one_counterexample :
    cachedInits c2stream = [c2meta, c2video, c2audio] ∧
    ¬ (readN (c2stream.AttachSubscriber 1 .dropOldest).2.1.buffer 3).2
        = [(some c2meta, true), (some c2video, true), (some c2audio, true)] ∧
    (readN (c2stream.AttachSubscriber 1 .dropOldest).2.1.buffer 3).2
        = [(some c2audio, true), (none, false), (none, false)] := by
  refine ⟨by decide, by decide, by decide⟩

/-- C2 (amended): whenever the queue size (the capacity rounded up to a
power of two) is at least the number of cached init messages, the newly
attached subscriber's queue contains, before any live message, exactly
the cached init messages in the fixed order metadata, video, audio —
each only if present — and nothing else (the next read reports an empty
queue). -/
theorem C2_init_replay (s : Stream) (capacity : Nat) (strategy : BackpressureStrategy)
    (h : (cachedInits s).length ≤ nextPow2 capacity) :
    (readN (s.AttachSubscriber capacity strategy).2.1.buffer (cachedInits s).length).2
        = (cachedInits s).map (fun m => (some m, true)) ∧
    (readN (s.AttachSubscriber capacity strategy).2.1.buffer
        (cachedInits s).length).1.Read.2.2 = false := by
  obtain ⟨k, hk⟩ := nextPow2_pow capacity
  have hlen3 : (cachedInits s).length ≤ 3 := by
    unfold cachedInits
    cases s.initMeta <;> cases s.initVideo <;> cases s.initAudio <;> simp
  have hU : (cachedInits s).length < U32 := by
    have : (3 : Nat) < U32 := by simp [U32]
    omega
  have hwl := writeList_linear (cachedInits s) (NewRingBuffer capacity strategy) 0 k
    (show (NewRingBuffer capacity strategy).size = 2 ^ k from hk)
    rfl
    (show (List.replicate (nextPow2 capacity) (none : Option MediaMessage)).length
        = nextPow2 capacity from by simp)
    rfl rfl
    (show 0 + (cachedInits s).length ≤ nextPow2 capacity from by omega)
    (show 0 + (cachedInits s).length < U32 from by omega)
  rw [attach_buffer_eq, hwl]
  have hrd := readN_linear (cachedInits s) []
    { NewRingBuffer capacity strategy with
        buffer := placeAt 0 (cachedInits s) (NewRingBuffer capacity strategy).buffer
        writePos := 0 + (cachedInits s).length }
    k hk rfl
    (show placeAt 0 (cachedInits s) (NewRingBuffer capacity strategy).buffer
        = placeAt 0 ([] ++ cachedInits s)
            (List.replicate (nextPow2 capacity) none) from by simp [NewRingBuffer])
    rfl
    (show 0 + (cachedInits s).length = ([] : List MediaMessage).length
        + (cachedInits s).length from by simp)
    (show ([] : List MediaMessage).length + (cachedInits s).length
        ≤ nextPow2 capacity from by simpa using h)
    (show ([] : List MediaMessage).length + (cachedInits s).length < U32 from by
      simpa using hU)
  refine ⟨?_, ?_⟩
  · exact hrd.1
  · rw [hrd.2]
    simp [RingBuffer.Read]

/-- Witness for C2: the three-init fixture with capacity 16 delivers
exactly metadata, video, audio and then reports empty. -/
theorem C2_init_replay_witness :
    (cachedInits c2stream).length ≤ nextPow2 16 ∧
    (readN (c2stream.AttachSubscriber 16 .dropOldest).2.1.buffer
        (cachedInits c2stream).length).2
      = (cachedInits c2stream).map (fun m => (some m, true)) ∧
    (readN (c2stream.AttachSubscriber 16 .dropOldest).2.1.buffer
        (cachedInits c2stream).length).1.Read.2.2 = false :=
  ⟨by decide,
    (C2_init_replay c2stream 16 .dropOldest (by decide)).1,
    (C2_init_replay c2stream 16 .dropOldest (by decide)).2⟩

/-- An operation in a subscriber attach/detach history. -/
inductive StreamOp where
  | attach (capacity : Nat) (strategy : BackpressureStrategy)
  | detach (id : Nat)
  deriving DecidableEq, Repr

/-- Run an operation history on a stream, collecting the id returned by
each `AttachSubscriber` in order. -/
def runOps : Stream → List StreamOp → Stream × List Nat
  | s, [] => (s, [])
  | s, .attach c strat :: rest =>
    let r := s.AttachSubscriber c strat
    let r2 := runOps r.1 rest
    (r2.1, r.2.2 :: r2.2)
  | s, .detach i :: rest => runOps (s.DetachSubscriber i) rest

/-- Number of attach operations in a history. -/
def attachCount : List StreamOp → Nat
  | [] => 0
  | .attach _ _ :: rest => attachCount rest + 1
  | .detach _ :: rest => attachCount rest

/-- An all-attach history has as many attaches as elements. -/
theorem attachCount_replicate (n : Nat) (c : Nat) (strat : BackpressureStrategy) :
    attachCount (List.replicate n (.attach c strat)) = n := by
  induction n with
  | zero => rfl
  | succ k ih => simp [List.replicate, attachCount, ih]

/-- Detaches never touch `nextSubID`; after a history, `nextSubID` has
advanced by the number of attaches, modulo `2^64`. -/
theorem runOps_nextSubID (ops : List StreamOp) :
    ∀ s : Stream, s.nextSubID < U64 →
      (runOps s ops).1.nextSubID = (s.nextSubID + attachCount ops) % U64 := by
  induction ops with
  | nil =>
    intro s hs
    simp [runOps, attachCount, Nat.mod_eq_of_lt hs]
  | cons op rest ih =>
    intro s hs
    match op with
    | .attach c strat =>
      have h1 : ((s.nextSubID + 1) % U64) < U64 := Nat.mod_lt _ (by simp [U64])
      simp only [runOps, Stream.AttachSubscriber, attachCount]
      rw [ih _ h1]
      simp only [Nat.mod_add_mod]
      congr 1
      omega
    | .detach i =>
      simp only [runOps, attachCount]
      exact ih _ (by simpa [Stream.DetachSubscriber] using hs)

/-- As long as the `uint64` id counter does not wrap, the ids returned by
a history are consecutive from the starting `nextSubID`. -/
theorem runOps_ids (ops : List StreamOp) :
    ∀ s : Stream, s.nextSubID + attachCount ops ≤ U64 →
      (runOps s ops).2 = List.range' s.nextSubID (attachCount ops) := by
  induction ops with
  | nil => intro s _; rfl
  | cons op rest ih =>
    intro s hle
    match op with
    | .attach c strat =>
      simp only [attachCount] at hle
      have hnext : ((s.AttachSubscriber c strat).1).nextSubID = (s.nextSubID + 1) % U64 := rfl
      have hid : (s.AttachSubscriber c strat).2.2 = s.nextSubID := rfl
      simp only [runOps, attachCount, hid]
      by_cases hlt : s.nextSubID + 1 < U64
      · rw [ih _ (by rw [hnext, Nat.mod_eq_of_lt hlt]; omega)]
        rw [hnext, Nat.mod_eq_of_lt hlt, List.range'_succ]
      · have hn0 : attachCount rest = 0 := by omega
        have hfin : ((s.AttachSubscriber c strat).1).nextSubID + attachCount rest ≤ U64 := by
          rw [hnext, hn0]
          have := Nat.mod_lt (s.nextSubID + 1) (show 0 < U64 from by simp [U64])
          omega
        rw [ih _ hfin, hn0]
        simp [List.range']
    | .detach i =>
      simp only [attachCount] at hle
      simp only [runOps, attachCount]
      exact ih _ (by simpa [Stream.DetachSubscriber] using hle)

/-- Running a concatenated history runs the parts in sequence and
concatenates the returned ids. -/
theorem runOps_append (a b : List StreamOp) :
    ∀ s : Stream,
      runOps s (a ++ b)
        = ((runOps (runOps s a).1 b).1, (runOps s a).2 ++ (runOps (runOps s a).1 b).2) := by
  induction a with
  | nil => intro s; simp [runOps]
  | cons op rest ih =>
    intro s
    match op with
    | .attach c strat => simp [runOps, ih]
    | .detach i => simp [runOps, ih]

/-- Go map assignment keeps every binding with a different key. -/
theorem mapInsert_mem_of_ne (l : List (Nat × Subscriber)) (id : Nat) (sub : Subscriber)
    (p : Nat × Subscriber) (hp : p ∈ l) (hne : p.1 ≠ id) :
    p ∈ mapInsert l id sub := by
  unfold mapInsert
  by_cases hany : l.any (fun q => q.1 = id)
  · rw [if_pos hany]
    exact List.mem_map.mpr ⟨p, hp, by simp [hne]⟩
  · rw [if_neg hany]
    exact List.mem_append_left _ hp

/-- C10 counterexample: after exactly `2^64` attach operations the
`uint64` id counter has wrapped and an `AttachSubscriber` call returns
id 0 — so over unboundedly long histories the returned ids are neither
all nonzero nor strictly increasing. -/
theorem C10_wrap_counterexample :
    0 ∈ (runOps (NewStream (NewStreamKey "live" "s"))
        (List.replicate U64 (.attach 4 .dropOldest))).2 := by
  have hsplit : List.replicate U64 (StreamOp.attach 4 .dropOldest)
      = List.replicate (U64 - 1) (StreamOp.attach 4 .dropOldest)
        ++ [StreamOp.attach 4 .dropOldest] := by
    conv_lhs => rw [show U64 = (U64 - 1) + 1 from by unfold U64; omega]
    rw [List.replicate_succ']
  rw [hsplit, runOps_append]
  have hnext : ((runOps (NewStream (NewStreamKey "live" "s"))
      (List.replicate (U64 - 1) (StreamOp.attach 4 .dropOldest))).1).nextSubID = 0 := by
    rw [runOps_nextSubID _ _ (show (NewStream (NewStreamKey "live" "s")).nextSubID < U64
        from by simp [NewStream, U64])]
    rw [attachCount_replicate]
    show (1 + (U64 - 1)) % U64 = 0
    have h1 : 1 + (U64 - 1) = U64 := by unfold U64; omega
    rw [h1, Nat.mod_self]
  apply List.mem_append_right
  have hone : ∀ (s : Stream),
      (runOps s [StreamOp.attach 4 .dropOldest]).2 = [s.nextSubID] := fun _ => rfl
  rw [hone, hnext]
  exact List.mem_singleton.mpr rfl

/-- C10 (amended): over any attach/detach history with fewer than `2^64`
attaches, starting from a fresh stream, the returned subscriber ids are
exactly 1, 2, 3, … in order — nonzero and strictly increasing, with
detaches never resetting the counter — and every attach binds a freshly
allocated ring buffer (the new ring with only the cached init replay in
it), leaving all other subscribers' entries untouched. -/
theorem C10_subscriber_ids (key : StreamKey) (ops : List StreamOp)
    (h : attachCount ops < U64) :
    (runOps (NewStream key) ops).2 = List.range' 1 (attachCount ops) ∧
    (runOps (NewStream key) ops).2.Pairwise (· < ·) ∧
    (∀ id ∈ (runOps (NewStream key) ops).2, id ≠ 0) ∧
    (∀ (s : Stream) (c : Nat) (strat : BackpressureStrategy),
      (s.AttachSubscriber c strat).2.1.buffer
          = writeList (NewRingBuffer c strat) (cachedInits s) ∧
      (s.AttachSubscriber c strat).2.2 = s.nextSubID ∧
      ∀ p ∈ s.subscribers, p.1 ≠ s.nextSubID →
        p ∈ (s.AttachSubscriber c strat).1.subscribers) := by
  have hids : (runOps (NewStream key) ops).2 = List.range' 1 (attachCount ops) :=
    runOps_ids ops (NewStream key) (by simp only [NewStream]; omega)
  refine ⟨hids, ?_, ?_, ?_⟩
  · rw [hids]
    exact List.pairwise_lt_range' 1 (attachCount ops)
  · intro id hid
    rw [hids] at hid
    have := List.mem_range'_1.mp hid
    omega
  · intro s c strat
    exact ⟨attach_buffer_eq s c strat, rfl,
      fun p hp hne => mapInsert_mem_of_ne s.subscribers s.nextSubID _ p hp hne⟩

/-- History fixture for the C10 witness: attach, detach the first id,
attach again. -/
def c10ops : List StreamOp :=
  [.attach 4 .dropOldest, .detach 1, .attach 4 .dropOldest]

/-- Witness for C10: on the fixture the ids are 1 then 2 — the counter
is not reset by the detach, ids stay nonzero and increasing. -/
theorem C10_subscriber_ids_witness :
    attachCount c10ops < U64 ∧
    (runOps (NewStream (NewStreamKey "live" "w10")) c10ops).2
        = List.range' 1 (attachCount c10ops) ∧
    List.range' 1 (attachCount c10ops) = [1, 2] :=
  ⟨by decide,
    (C10_subscriber_ids (NewStreamKey "live" "w10") c10ops (by decide)).1,
    by decide⟩

/-- FLV tag type assigned by the muxer to each message kind. -/
def tagKindOf : MessageType → Nat
  | .audio => TagTypeAudio
  | .video => TagTypeVideo
  | .metadata => TagTypeScript

/-- Timestamp rebasing never touches the keyframe gate. -/
theorem rebase_gotKeyframe (st : SubState) (m : MediaMessage) :
    (rebaseTimestamp st m).1.gotKeyframe = st.gotKeyframe := by
  simp only [rebaseTimestamp]
  split_ifs <;> rfl

/-- The loop body's emit step always produces a tag (every message kind
muxes), whose payload is the message's and whose state is the rebased
one. -/
theorem emit_eq (st : SubState) (m : MediaMessage) :
    procStep.emit st m =
      ((rebaseTimestamp st m).1,
        some { kind := tagKindOf m.kind, Timestamp := (rebaseTimestamp st m).2,
               Data := m.Payload }) := by
  cases hk : m.kind <;>
    simp [procStep.emit, MuxMessage, MuxAudio, MuxVideo, MuxScript, NewTag, hk,
      tagKindOf]

/-- The tags the loop writes are exactly the muxed view of the emission
trace. -/
theorem processMessages_eq_trace (msgs : List MediaMessage) :
    ∀ st : SubState,
      processMessages st msgs = (processTrace st msgs).map
        (fun p => { kind := tagKindOf p.1.kind, Timestamp := p.2, Data := p.1.Payload }) := by
  induction msgs with
  | nil => intro st; rfl
  | cons m rest ih =>
    intro st
    simp only [processMessages, processTrace, procStep, emit_eq]
    split_ifs <;> simp [ih]

/-- Once the gate is open, every message read from the ring is emitted. -/
theorem processTrace_gate_open (msgs : List MediaMessage) :
    ∀ st : SubState, st.gotKeyframe = true →
      (processTrace st msgs).map Prod.fst = msgs := by
  induction msgs with
  | nil => intro st _; rfl
  | cons m rest ih =>
    intro st hst
    have hcond : ¬ (¬ st.gotKeyframe ∧ ¬ m.IsInit) := by
      simp [hst]
    simp only [processTrace, procStep, if_neg hcond, emit_eq]
    simp only [List.map_cons]
    rw [ih _ (by rw [rebase_gotKeyframe]; exact hst)]

/-- While the gate is closed: init messages pass through unchanged, and
the first non-init message ever emitted is a video keyframe. -/
theorem processTrace_gate_closed (msgs : List MediaMessage) :
    ∀ st : SubState, st.gotKeyframe = false →
      ((processTrace st msgs).map Prod.fst).filter (fun m => m.IsInit)
          = msgs.filter (fun m => m.IsInit) ∧
      (∀ m, (((processTrace st msgs).map Prod.fst).filter (fun m => !m.IsInit)).head?
            = some m →
        m.kind = .video ∧ IsVideoKeyframe m.Payload = true) := by
  induction msgs with
  | nil => intro st _; exact ⟨rfl, fun m h => by simp [processTrace] at h⟩
  | cons m rest ih =>
    intro st hst
    by_cases hInit : m.IsInit = true
    · have hcond : ¬ (¬ st.gotKeyframe ∧ ¬ m.IsInit) := by simp [hInit]
      have hreb : rebaseTimestamp st m = (st, 0) := by simp [rebaseTimestamp, hInit]
      simp only [processTrace, procStep, if_neg hcond, emit_eq, hreb]
      obtain ⟨ih1, ih2⟩ := ih st hst
      constructor
      · simp [hInit, ih1]
      · intro x hx
        apply ih2
        simpa [hInit] using hx
    · have hInitF : m.IsInit = false := by simpa using hInit
      have hcond : (¬ st.gotKeyframe ∧ ¬ m.IsInit) := by simp [hst, hInitF]
      by_cases hkf : m.kind = .video ∧ IsVideoKeyframe m.Payload
      · simp only [processTrace, procStep, if_pos hcond, if_pos hkf, emit_eq, List.map_cons]
        have hall : (processTrace
              (rebaseTimestamp { st with gotKeyframe := true } m).1 rest).map Prod.fst
            = rest :=
          processTrace_gate_open rest _ (by rw [rebase_gotKeyframe])
        rw [hall]
        constructor
        · simp [hInitF]
        · intro x hx
          simp only [List.filter_cons, hInitF, Bool.not_false, if_pos,
            List.head?_cons] at hx
          obtain rfl : m = x := by
            cases hx
            rfl
          exact hkf
      · simp only [processTrace, procStep, if_pos hcond, if_neg hkf]
        obtain ⟨ih1, ih2⟩ := ih st hst
        constructor
        · simpa [hInitF] using ih1
        · exact ih2

/-- C7: over any sequence of messages read from its ring buffer, an
HTTP-FLV subscriber forwards every init message, and the first non-init
message it ever emits is a video message whose first payload byte has
upper nibble 1 (the keyframe) — so nothing non-init is emitted before
the keyframe is observed, and the first non-init video tag emitted is a
keyframe. -/
theorem C7_keyframe_gate (msgs : List MediaMessage) :
    ((processTrace initialSubState msgs).map Prod.fst).filter (fun m => m.IsInit)
        = msgs.filter (fun m => m.IsInit) ∧
    (∀ m, (((processTrace initialSubState msgs).map Prod.fst).filter
          (fun m => !m.IsInit)).head? = some m →
      m.kind = .video ∧ IsVideoKeyframe m.Payload = true) :=
  processTrace_gate_closed msgs initialSubState rfl

/-- Message fixture for the C7 witness: metadata init, a pre-keyframe
audio frame (to be dropped), the keyframe, then an inter frame. -/
def c7msgs : List MediaMessage :=
  [{ kind := .metadata, Timestamp := 0, IsInit := true, Payload := [2] },
   { kind := .audio, Timestamp := 10, IsInit := false, Payload := [175] },
   { kind := .video, Timestamp := 20, IsInit := false, Payload := [23, 1] },
   { kind := .video, Timestamp := 30, IsInit := false, Payload := [39, 1] }]

/-- Keyframe message of the C7 fixture. -/
def c7kf : MediaMessage :=
  { kind := .video, Timestamp := 20, IsInit := false, Payload := [23, 1] }

/-- Witness for C7: on the fixture the first emitted non-init message is
the keyframe video frame, and the theorem instance confirms its shape. -/
theorem C7_keyframe_gate_witness :
    (((processTrace initialSubState c7msgs).map Prod.fst).filter
        (fun m => !m.IsInit)).head? = some c7kf ∧
    c7kf.kind = .video ∧ IsVideoKeyframe c7kf.Payload = true :=
  ⟨by decide,
    ((C7_keyframe_gate c7msgs).2 c7kf (by decide)).1,
    ((C7_keyframe_gate c7msgs).2 c7kf (by decide)).2⟩

/-- The S5 connect command `["connect", 1, {app: "live", objectEncoding:
0}]`. -/
def connectCommand : List Nonchalant.amf0.Value :=
  [.str (ascii "connect"), .num f64One,
   .object [(ascii "app", .str (ascii "live")),
            (ascii "objectEncoding", .num f64Zero)]]

/-- Session state after the embedded `HandleConnect` handles the S5
connect command. -/
def connectOutcome : Except String ServiceSession :=
  Nonchalant.rtmp.HandleConnect newServiceSession connectCommand

/-- C6: on a connect command the server emits, in order and before
anything else, Window-Ack-Size (type 5), Set-Peer-Bandwidth (type 6),
Set-Chunk-Size 4096 (type 1) — adopting 4096 as the outgoing chunk size
and 5000000 as the ack window — then the `_result` command (type 20) on
chunk stream 3.  The claim's last conjunct fails: the first byte of the
`_result` AMF0 payload is 0x0A (the StrictArray wrapper of
`EncodeCommand`), not 0x02. -/
theorem C6_connect_control_sequence :
    connectOutcome.toOption.map (fun s => s.wire.map (fun w => (w.csid, w.msgType)))
        = some [(2, 5), (2, 6), (2, 1), (3, 20)] ∧
    connectOutcome.toOption.map (fun s => s.writeChunkSize) = some 4096 ∧
    connectOutcome.toOption.map (fun s => s.ackWindowSize) = some 5000000 ∧
    connectOutcome.toOption.map (fun s => (s.wire.map (fun w => w.body)).getLast?.map List.head?)
        = some (some (some 10)) ∧
    ¬ connectOutcome.toOption.map
        (fun s => (s.wire.map (fun w => w.body)).getLast?.map List.head?)
      = some (some (some 2)) := by
  refine ⟨by decide, by decide, by decide, by decide, by decide⟩

/-- Witness for C5: a video tag with a timestamp above `0xFFFFFF` (so the
extension byte is exercised) and a 3-byte payload. -/
theorem C5_flv_tag_witness :
    305419896 < U32 ∧ 11 + [23, 1, 2].length < U32 ∧
      (Tag.mk 9 305419896 [23, 1, 2]).Bytes.length = 1 + 3 + 3 + 1 + 3 + [23, 1, 2].length + 4 ∧
      readBE (((Tag.mk 9 305419896 [23, 1, 2]).Bytes.drop 4).take 3) = 305419896 % 2 ^ 24 ∧
      (Tag.mk 9 305419896 [23, 1, 2]).Bytes.getD 7 0 = 305419896 / 2 ^ 24 ∧
      readBE ((Tag.mk 9 305419896 [23, 1, 2]).Bytes.drop (11 + [23, 1, 2].length)) =
        11 + [23, 1, 2].length :=
  ⟨by decide, by decide,
    (C5_flv_tag_layout 9 305419896 [23, 1, 2] (by decide) (by decide)).1,
    (C5_flv_tag_layout 9 305419896 [23, 1, 2] (by decide) (by decide)).2.2.1,
    (C5_flv_tag_layout 9 305419896 [23, 1, 2] (by decide) (by decide)).2.2.2.1,
    (C5_flv_tag_layout 9 305419896 [23, 1, 2] (by decide) (by decide)).2.2.2.2⟩
